import Mathlib

/-!
Verification of the promptfoo-runner-ui core against its specification.

This file shallowly embeds the pure/stateful cores of the repository:
the command builder and form validation (src/routes/+page.server.ts and
src/lib/server/eval-manager.ts), the bounded evaluation-process registry
(src/lib/server/eval-manager.ts, class EvaluationManager), the results
parser (parseResults in both server files), the estimation calculator
(src/lib/utils/estimations.ts), the run-submission orchestration
(actions.run in src/routes/+page.server.ts), and the close handler of
executePromptfoo (scripts/run-eval.ts).

File-system state, JSON parsing and JS runtime errors are abstracted into
explicit datatypes; machine clocks, process handles and timer handles are
represented by opaque strings or by per-id bookkeeping.
-/

namespace PromptfooRunnerUI

/-! ## Data model: run types and form data -/

/-- The run-type enumeration of `evalFormSchema`
(src/lib/schemas/eval-form.ts). -/
inductive RunType
  | smoke
  | model
  | full
  | pattern
  | first
  | retry
deriving DecidableEq

/-- The string a run type contributes as the first CLI argument
(z.enum values in src/lib/schemas/eval-form.ts). -/
def RunType.toArg : RunType → String
  | .smoke => "smoke"
  | .model => "model"
  | .full => "full"
  | .pattern => "pattern"
  | .first => "first"
  | .retry => "retry"

/-- `EvalFormSchema` (src/lib/schemas/eval-form.ts): optional string and
integer fields, boolean flags defaulting to false. -/
structure EvalFormSchema where
  runType : RunType
  modelName : Option String := none
  pattern : Option String := none
  count : Option Int := none
  noCache : Bool := false
  verbose : Bool := false
  noHtml : Bool := false
deriving DecidableEq

/-- JavaScript truthiness of an optional string field: an absent field and
the empty string are falsy, every other string is truthy. -/
def strTruthy : Option String → Bool
  | none => false
  | some s => s ≠ ""

/-- JavaScript truthiness of an optional integer field: an absent field and
zero are falsy. -/
def intTruthy : Option Int → Bool
  | none => false
  | some n => n ≠ 0

/-- Truthiness of `data.count` combined with the positivity check of
`validateEvalForm` (`count === undefined || count <= 0` rejected). -/
def countPositive : Option Int → Bool
  | some c => decide (0 < c)
  | none => false

/-- `MODEL_OPTIONS` (src/lib/schemas/eval-form.ts). -/
def MODEL_OPTIONS : List String := ["xiaomi", "gemini", "gpt-oss-20b", "gpt-oss-120b"]

/-- `CLI_FLAGS.NO_CACHE` (cli constants module). -/
def NO_CACHE : String := "--no-cache"

/-- `CLI_FLAGS.VERBOSE` (cli constants module). -/
def VERBOSE : String := "--verbose"

/-- `CLI_FLAGS.NO_HTML` (cli constants module). -/
def NO_HTML : String := "--no-html"

/-! ## Command builder -/

/-- `buildCommandArgs` as written identically in
src/routes/+page.server.ts (lines 41-66) and
src/lib/server/eval-manager.ts (lines 118-143): first the run type, then
the run-type-specific positional arguments guarded by JS truthiness, then
the three boolean flags in the fixed order no-cache, verbose, no-html. -/
def buildCommandArgs (formData : EvalFormSchema) : List String :=
  let args := [formData.runType.toArg]
  let args :=
    if formData.runType = RunType.model ∧ strTruthy formData.modelName = true then
      args ++ [formData.modelName.getD ""]
    else if formData.runType = RunType.pattern ∧ strTruthy formData.pattern = true then
      args ++ [formData.pattern.getD ""]
    else if formData.runType = RunType.first ∧ intTruthy formData.count = true then
      args ++ [toString (formData.count.getD 0)] ++
        (if strTruthy formData.modelName = true then ["model", formData.modelName.getD ""] else [])
    else args
  let args := if formData.noCache then args ++ [NO_CACHE] else args
  let args := if formData.verbose then args ++ [VERBOSE] else args
  let args := if formData.noHtml then args ++ [NO_HTML] else args
  args

/-- `validateEvalForm` (src/lib/schemas/eval-form.ts): collects field
errors and returns them, or `none` when the form data passes the custom
validation. -/
def validateEvalForm (data : EvalFormSchema) : Option (List (String × String)) :=
  let errors : List (String × String) :=
    (if data.runType = RunType.model ∧ strTruthy data.modelName = false then
        [("modelName", "Model name is required for model run type")] else []) ++
    (if data.runType = RunType.pattern ∧ strTruthy data.pattern = false then
        [("pattern", "Pattern is required for pattern run type")] else []) ++
    (if data.runType = RunType.first ∧ countPositive data.count = false then
        [("count", "Count is required for first run type")] else []) ++
    (if strTruthy data.modelName = true ∧ MODEL_OPTIONS.contains (data.modelName.getD "") = false then
        [("modelName", "Invalid model name")] else [])
  if 0 < errors.length then some errors else none

/-! Claim-side definitions for the refinement statements about
`buildCommandArgs` (the spec's §4.1 wording). -/

/-- Modelled from the spec wording (§4.1): the positional arguments a
validated request contributes after the run type. -/
def specPositionals (d : EvalFormSchema) : List String :=
  match d.runType with
  | .model => [d.modelName.getD ""]
  | .pattern => [d.pattern.getD ""]
  | .first =>
      [toString (d.count.getD 0)] ++
        (if strTruthy d.modelName = true then ["model", d.modelName.getD ""] else [])
  | _ => []

/-- Modelled from the spec wording (§4.1): the boolean flags a request
contributes, each emitted iff its boolean is set. -/
def specFlags (d : EvalFormSchema) : List String :=
  (if d.noCache then [NO_CACHE] else []) ++
  (if d.verbose then [VERBOSE] else []) ++
  (if d.noHtml then [NO_HTML] else [])

/-! ## Evaluation process registry (class EvaluationManager,
src/lib/server/eval-manager.ts) -/

/-- One tracked entry of the registry (interface ActiveEvaluation).
The wall-clock `startTime` and the opaque timer handle of the source are
not observable by any claim; the timer is modelled in
`ManagerState.armedTimers` and the process handle by an opaque name. -/
structure ActiveEvaluation where
  id : String
  process : String
  command : String
deriving DecidableEq

/-- The mutable state of an `EvaluationManager` instance: the `Map` of
active evaluations (as an association list with unique keys), the set of
ids whose per-run timeout is still armed (a `setTimeout` was issued at
registration and not yet cleared), the processes that have been sent
SIGTERM, and the configured concurrency bound. -/
structure ManagerState where
  activeEvaluations : List (String × ActiveEvaluation)
  armedTimers : List String
  killed : List String
  maxConcurrent : Nat
deriving DecidableEq

/-- `Map.prototype.get`. -/
def mapGet (m : List (String × ActiveEvaluation)) (id : String) : Option ActiveEvaluation :=
  (m.find? (fun p => p.1 == id)).map (fun p => p.2)

/-- `Map.prototype.set`: replace in place when the key exists, append
otherwise. -/
def mapSet (m : List (String × ActiveEvaluation)) (id : String) (v : ActiveEvaluation) :
    List (String × ActiveEvaluation) :=
  if (m.find? (fun p => p.1 == id)).isSome then
    m.map (fun p => if p.1 == id then (id, v) else p)
  else
    m ++ [(id, v)]

/-- `Map.prototype.delete`. -/
def mapDelete (m : List (String × ActiveEvaluation)) (id : String) :
    List (String × ActiveEvaluation) :=
  m.filter (fun p => p.1 != id)

/-- The tracked ids of a registry state. -/
def keys (s : ManagerState) : List String :=
  s.activeEvaluations.map (fun p => p.1)

/-- `EvaluationManager.canStartNew` (eval-manager.ts line 21):
current tracked count below the configured maximum. -/
def canStartNew (s : ManagerState) : Bool :=
  s.activeEvaluations.length < s.maxConcurrent

/-- `EvaluationManager.register` (eval-manager.ts lines 29-48): throws a
capacity error when `canStartNew` is false; otherwise arms the per-run
timeout and stores the entry. The thrown `Error` is modelled as
`Except.error` with the source's message; the armed `setTimeout` handle
is modelled by recording the id in `armedTimers`. The `timeoutMs` budget
itself is not observable by any claim. -/
def register (s : ManagerState) (id : String) (proc : String) (command : String)
    (_timeoutMs : Nat) : Except String ManagerState :=
  if canStartNew s = false then
    .error ("Max concurrent evaluations (" ++ toString s.maxConcurrent ++ ") reached")
  else
    .ok { s with
      activeEvaluations := mapSet s.activeEvaluations id ⟨id, proc, command⟩,
      armedTimers := id :: s.armedTimers }

/-- `EvaluationManager.unregister` (eval-manager.ts lines 50-56): when the
id is tracked, clear its pending timeout and delete the entry; otherwise
do nothing. -/
def unregister (s : ManagerState) (id : String) : ManagerState :=
  match mapGet s.activeEvaluations id with
  | none => s
  | some _ =>
      { s with
        armedTimers := s.armedTimers.filter (fun t => t != id),
        activeEvaluations := mapDelete s.activeEvaluations id }

/-- `EvaluationManager.cancel` (eval-manager.ts lines 58-64): when the id
is tracked, send SIGTERM to its process and unregister it. -/
def cancel (s : ManagerState) (id : String) : ManagerState :=
  match mapGet s.activeEvaluations id with
  | none => s
  | some activeEval =>
      unregister { s with killed := s.killed ++ [activeEval.process] } id

/-- The armed per-run timeout of `id` firing: the callback installed at
registration runs `this.cancel(id)`. A timer that was cleared (or never
armed) cannot run its callback. -/
def fireTimeout (s : ManagerState) (id : String) : ManagerState :=
  if s.armedTimers.contains id then cancel s id else s

/-- The registry operations a caller (or an armed timer) can perform. -/
inductive RegistryOp
  | register (id proc command : String) (timeoutMs : Nat)
  | unregister (id : String)
  | cancel (id : String)
  | fire (id : String)
deriving DecidableEq

/-- Apply one operation. A register call that throws leaves the registry
state exactly as it was (the exception propagates to the caller). -/
def applyOp (s : ManagerState) : RegistryOp → ManagerState
  | .register id proc command timeoutMs =>
      match register s id proc command timeoutMs with
      | .ok s2 => s2
      | .error _ => s
  | .unregister id => unregister s id
  | .cancel id => cancel s id
  | .fire id => fireTimeout s id

/-- Apply a sequence of operations in order. -/
def applyOps (s : ManagerState) : List RegistryOp → ManagerState
  | [] => s
  | op :: ops => applyOps (applyOp s op) ops

/-- A freshly constructed `EvaluationManager` with the given bound
(constructor, eval-manager.ts lines 16-19). -/
def initialState (maxC : Nat) : ManagerState :=
  { activeEvaluations := [], armedTimers := [], killed := [], maxConcurrent := maxC }

/-- An operation is id-fresh at a state when, if it is a register call,
its id is not currently tracked. The one register caller in the
repository (actions.run) generates ids from the clock and a random
suffix, so its register calls are id-fresh. -/
def freshRegister (s : ManagerState) : RegistryOp → Bool
  | .register id _ _ _ => (mapGet s.activeEvaluations id).isNone
  | _ => true

/-- A well-formed operation sequence: every register call uses a fresh
id. -/
def wfOps (s : ManagerState) : List RegistryOp → Bool
  | [] => true
  | op :: ops => freshRegister s op && wfOps (applyOp s op) ops

/-! ## Result parser -/

/-- One entry of the `results` array of output.json; only its JS-truthy
`success` flag is read (`r.success`). -/
structure TestResult where
  success : Bool
deriving DecidableEq

/-- The shape of the `results` field of a successfully parsed
output.json: absent (or falsy, so `output.results || []` yields `[]`),
an actual array, or a truthy non-array value (on which `.filter` throws a
TypeError carrying the given runtime message). -/
inductive ResultsField
  | missing
  | array (rs : List TestResult)
  | nonArrayTruthy (errMsg : String)
deriving DecidableEq

/-- The observable state of the output.json file: absent on disk, present
but not valid JSON (`JSON.parse` throws with the given message), or
present and parsed. -/
inductive OutputFile
  | absent
  | invalidJson (errMsg : String)
  | validJson (results : ResultsField)
deriving DecidableEq

/-- `EvalResult` (src/lib/types/eval.ts). `passRate` is an exact rational
here; the claims under verification never exercise rounding. -/
structure EvalResult where
  success : Bool
  passRate : Option ℚ := none
  totalTests : Option Nat := none
  passedTests : Option Nat := none
  failedTests : Option Nat := none
  htmlReportPath : Option String := none
  error : Option String := none
deriving DecidableEq

/-- The `EvaluationError` class of the error-handling utility module
(src/lib/utils/error-handling.ts): a structured error with a message, a
machine-readable code, and the original error kept as `details`. The
original error object is modelled by its string rendering; the stack
trace bookkeeping of the source constructor has no observable content
here. -/
structure EvaluationError where
  message : String
  code : String
  details : Option String := none
deriving DecidableEq

/-! The `ErrorCodes` record (src/lib/utils/error-handling.ts), one
definition per code. -/

namespace ErrorCodes

def VALIDATION_ERROR : String := "VALIDATION_ERROR"

def API_KEY_MISSING : String := "API_KEY_MISSING"

def PROCESS_ERROR : String := "PROCESS_ERROR"

def TIMEOUT_ERROR : String := "TIMEOUT_ERROR"

def PARSE_ERROR : String := "PARSE_ERROR"

def CONFIG_ERROR : String := "CONFIG_ERROR"

def ENVIRONMENT_ERROR : String := "ENVIRONMENT_ERROR"

def CONCURRENT_LIMIT_ERROR : String := "CONCURRENT_LIMIT_ERROR"

def UNKNOWN_ERROR : String := "UNKNOWN_ERROR"

end ErrorCodes

/-- The character class of the API-key regular expression: ASCII letters
and digits. -/
def isAlnumAscii (c : Char) : Bool := c.isAlpha || c.isDigit

/-- The character-level scan of the global replace in
`sanitizeErrorMessage`: at each position, a match of the API-key pattern
is `s`, `k`, `-` followed by a greedy run of at least 32 ASCII
alphanumerics; a match is replaced by `[REDACTED]` and scanning resumes
after it, otherwise the character is kept and scanning advances by one.
The structural fuel bounds the number of scan steps; each step consumes
at least one character, so fuel equal to the initial length never runs
out. -/
def sanitizeCharsAux : Nat → List Char → List Char
  | 0, l => l
  | _ + 1, [] => []
  | fuel + 1, c :: cs =>
      if c = 's' ∧ cs.take 2 = ['k', '-'] ∧
          32 ≤ ((cs.drop 2).takeWhile isAlnumAscii).length then
        "[REDACTED]".data ++
          sanitizeCharsAux fuel ((cs.drop 2).drop ((cs.drop 2).takeWhile isAlnumAscii).length)
      else
        c :: sanitizeCharsAux fuel cs

/-- The full scan of a character list. -/
def sanitizeChars (l : List Char) : List Char :=
  sanitizeCharsAux l.length l

/-- `sanitizeErrorMessage` (src/lib/utils/error-handling.ts): replace
every occurrence of `sk-` followed by 32 or more alphanumerics with the
fixed `[REDACTED]` placeholder. -/
def sanitizeErrorMessage (message : String) : String :=
  ⟨sanitizeChars message.data⟩

/-- A JavaScript thrown value, distinguished the way
`createEvaluationError` inspects it: an `EvaluationError` instance,
another `Error` (modelled by its message), or any other value (modelled
by its `String(...)` rendering). -/
inductive JsThrown
  | evalError (e : EvaluationError)
  | jsError (message : String)
  | other (value : String)
deriving DecidableEq

/-- `createEvaluationError` (src/lib/utils/error-handling.ts): pass an
`EvaluationError` through unchanged; wrap another `Error` with its
key-redacted message and the original as details; wrap any other value
with its string rendering. The source's `code` parameter defaults to
`UNKNOWN_ERROR`, but every call site modelled in this file passes a code
explicitly, so the default is left out of the signature. -/
def createEvaluationError (error : JsThrown) (code : String) : EvaluationError :=
  match error with
  | .evalError e => e
  | .jsError message =>
      { message := sanitizeErrorMessage message, code := code, details := some message }
  | .other value => { message := value, code := code, details := some value }

/-- The directory listing of the reports directory: `none` when the
directory does not exist, otherwise its filenames. -/
def ReportsDir : Type := Option (List String)

/-- The "most recent HTML report" computation shared by both parseResults
copies: filter to `.html` files, lexicographic sort, reverse, take the
first, and prefix with `/reports/`. -/
def latestHtmlReport (reportsDir : Option (List String)) : Option String :=
  match reportsDir with
  | none => none
  | some files =>
      let reports := ((files.filter (fun f => f.endsWith ".html")).mergeSort
        (fun a b => a ≤ b)).reverse
      match reports.head? with
      | some r => some ("/reports/" ++ r)
      | none => none

/-- The `results` array actually iterated: `output.results || []`. -/
def resultsOf : ResultsField → List TestResult
  | .missing => []
  | .array rs => rs
  | .nonArrayTruthy _ => []

namespace EvalManager

/-- `parseResults` (src/lib/server/eval-manager.ts lines 148-187):
`null` when output.json is absent; otherwise parse it, reduce the
`results` array to counts and a pass rate, locate the newest HTML
report, and hand any thrown error (invalid JSON, or `.filter` on a
truthy non-array `results` — a plain `Error`, never an
`EvaluationError`) to `createEvaluationError` with code PARSE_ERROR,
which redacts key-shaped substrings of the message. -/
def parseResults (file : OutputFile) (reportsDir : Option (List String)) :
    Except EvaluationError (Option EvalResult) :=
  match file with
  | .absent => .ok none
  | .invalidJson msg =>
      .error (createEvaluationError (.jsError msg) ErrorCodes.PARSE_ERROR)
  | .validJson (.nonArrayTruthy msg) =>
      .error (createEvaluationError (.jsError msg) ErrorCodes.PARSE_ERROR)
  | .validJson rf =>
      let results := resultsOf rf
      let totalTests := results.length
      let passedTests := (results.filter (fun r => r.success)).length
      let failedTests := totalTests - passedTests
      let passRate : ℚ := if 0 < totalTests then ((passedTests : ℚ) / (totalTests : ℚ)) * 100 else 0
      .ok (some
        { success := true
          passRate := some passRate
          totalTests := some totalTests
          passedTests := some passedTests
          failedTests := some failedTests
          htmlReportPath := latestHtmlReport reportsDir })

end EvalManager

namespace PageServer

/-- `parseResults` (src/routes/+page.server.ts lines 68-107): identical
computation, but a thrown error is caught and returned as a result object
with `success: false` and a prefixed message instead of a structured
error value. -/
def parseResults (file : OutputFile) (reportsDir : Option (List String)) :
    Option EvalResult :=
  match file with
  | .absent => none
  | .invalidJson msg =>
      some { success := false, error := some ("Failed to parse results: " ++ msg) }
  | .validJson (.nonArrayTruthy msg) =>
      some { success := false, error := some ("Failed to parse results: " ++ msg) }
  | .validJson rf =>
      let results := resultsOf rf
      let totalTests := results.length
      let passedTests := (results.filter (fun r => r.success)).length
      let failedTests := totalTests - passedTests
      let passRate : ℚ := if 0 < totalTests then ((passedTests : ℚ) / (totalTests : ℚ)) * 100 else 0
      some
        { success := true
          passRate := some passRate
          totalTests := some totalTests
          passedTests := some passedTests
          failedTests := some failedTests
          htmlReportPath := latestHtmlReport reportsDir }

end PageServer

/-! ## Estimation calculator (src/lib/utils/estimations.ts) -/

/-- `estimateTestCount` (estimations.ts lines 21-43). The `default`
branch of the source switch is unreachable over the run-type enum. -/
def estimateTestCount (runType : RunType) (formData : EvalFormSchema)
    (actualTestCount : Int) : Int :=
  match runType with
  | .smoke => 5
  | .model => actualTestCount
  | .full => actualTestCount
  | .pattern => min actualTestCount 10
  | .first => formData.count.getD 10
  | .retry => min actualTestCount 10

/-- Modelled from the claim wording: `testCount` policy by run type as
the spec states it (§4.4): smoke fixed 5; model/full the actual count;
pattern/retry capped estimate `min(actual, 10)`; first the user-supplied
count, defaulting to 10 when absent. -/
def estimateTestCountSpec (runType : RunType) (formData : EvalFormSchema)
    (actualTestCount : Int) : Int :=
  match runType with
  | .smoke => 5
  | .model | .full => actualTestCount
  | .pattern | .retry => min actualTestCount 10
  | .first => match formData.count with
      | some c => c
      | none => 10

/-! ## Run submission orchestration (actions.run,
src/routes/+page.server.ts lines 343-464) -/

/-- The inputs of one run submission that are decided outside the
orchestration code: the structural (zod) validation verdict of the form,
the parsed form data, whether the OPENROUTER_API_KEY environment
variable is truthy, and the opaque process that `spawn` would create. -/
structure RunActionInput where
  formValid : Bool
  formData : EvalFormSchema
  apiKeyPresent : Bool
  spawnedProcess : String
deriving DecidableEq

/-- `appConfig.maxConcurrentEvaluations` (src/lib/constants/app.config.ts). -/
def maxConcurrentEvaluations : Nat := 5

/-- `appConfig.evaluationTimeouts` by run type
(src/lib/constants/app.config.ts). -/
def evaluationTimeout : RunType → Nat
  | .smoke => 5 * 60 * 1000
  | .model => 20 * 60 * 1000
  | .full => 60 * 60 * 1000
  | .pattern => 20 * 60 * 1000
  | .first => 15 * 60 * 1000
  | .retry => 20 * 60 * 1000

/-- The immediate outcome of a run submission, up to the point where the
action suspends waiting for the child process to exit. -/
inductive RunActionResult
  | formInvalid
  | validationFailed (errors : List (String × String))
  | apiKeyMissing (errMsg : String)
  | capacityError (errMsg : String)
  | registerFailed (errMsg : String)
  | started (evalId : String) (commandArgs : List String)
deriving DecidableEq

/-- The observable effect of one run submission: its immediate result,
whether a child process was spawned, and the registry state after the
submission returned control. -/
structure RunActionOutcome where
  result : RunActionResult
  spawned : Bool
  manager : ManagerState
deriving DecidableEq

/-- `actions.run` (src/routes/+page.server.ts lines 343-412) up to its
suspension point: structural validation, custom validation, the API-key
guard and the capacity guard are checked in order before `spawn`; only
then is the child spawned and registered (a register throw kills the
fresh child and reports the failure). -/
def runAction (input : RunActionInput) (evalId : String) (mgr : ManagerState) :
    RunActionOutcome :=
  if input.formValid = false then
    { result := .formInvalid, spawned := false, manager := mgr }
  else
    match validateEvalForm input.formData with
    | some errors => { result := .validationFailed errors, spawned := false, manager := mgr }
    | none =>
        if input.apiKeyPresent = false then
          { result := .apiKeyMissing
              "API key not configured. Please check server environment variables."
            spawned := false, manager := mgr }
        else if canStartNew mgr = false then
          { result := .capacityError
              ("Maximum concurrent evaluations (" ++ toString maxConcurrentEvaluations ++
                ") reached. Please wait for current evaluations to complete.")
            spawned := false, manager := mgr }
        else
          let commandArgs := buildCommandArgs input.formData
          let timeoutMs := evaluationTimeout input.formData.runType
          match register mgr evalId input.spawnedProcess
              (String.intercalate " " commandArgs) timeoutMs with
          | .ok mgr2 => { result := .started evalId commandArgs, spawned := true, manager := mgr2 }
          | .error e => { result := .registerFailed e, spawned := true, manager := mgr }

/-! ## CLI wrapper exit handling (executePromptfoo, scripts/run-eval.ts
lines 378-400) -/

/-- The textual form of a Node `close` code (`number | null`) as string
interpolation renders it. -/
def exitCodeText : Option Int → String
  | none => "null"
  | some n => toString n

/-- The `close` handler of `executePromptfoo` (run-eval.ts lines 387-394):
resolve when the promptfoo exit code is 0 or 100 ("success with test
failures"), otherwise reject with an error naming the exit code. -/
def executePromptfooClose (code : Option Int) : Except String Unit :=
  if code = some 0 ∨ code = some 100 then
    .ok ()
  else
    .error ("promptfoo exited with code " ++ exitCodeText code)

/-! ## Helper lemmas -/

/-- `Nat.digitChar` of a value below ten is a decimal digit. -/
theorem digitChar_isDigit (n : Nat) (h : n < 10) : (Nat.digitChar n).isDigit = true := by
  interval_cases n <;> decide

/-- Every character `Nat.toDigitsCore` emits in base ten is a decimal
digit, provided the accumulator holds only digits. -/
theorem toDigitsCore_digits (b : Nat) (hb : b = 10) (fuel n : Nat) (ds : List Char)
    (hds : ∀ c ∈ ds, c.isDigit = true) :
    ∀ c ∈ Nat.toDigitsCore b fuel n ds, c.isDigit = true := by
  induction fuel generalizing n ds with
  | zero =>
      intro c hc
      simp only [Nat.toDigitsCore] at hc
      exact hds c hc
  | succ fuel ih =>
      intro c hc
      simp only [Nat.toDigitsCore] at hc
      split at hc
      · rcases List.mem_cons.mp hc with h1 | h1
        · subst h1; subst hb; exact digitChar_isDigit _ (Nat.mod_lt _ (by norm_num))
        · exact hds c h1
      · refine ih (n / b) (Nat.digitChar (n % b) :: ds) ?_ c hc
        intro d hd
        rcases List.mem_cons.mp hd with h1 | h1
        · subst h1; subst hb; exact digitChar_isDigit _ (Nat.mod_lt _ (by norm_num))
        · exact hds d h1

/-- Every character of `Nat.repr` is a decimal digit. -/
theorem natRepr_all_digits (n : Nat) : ∀ c ∈ (Nat.repr n).data, c.isDigit = true := by
  intro c hc
  have h : (Nat.repr n).data = Nat.toDigits 10 n := rfl
  rw [h] at hc
  exact toDigitsCore_digits 10 rfl (n + 1) n [] (by simp) c hc

/-- Every character of the decimal rendering of a positive integer is a
digit. -/
theorem posInt_toString_all_digits (c : Int) (hc : 0 < c) :
    ∀ ch ∈ (toString c).data, ch.isDigit = true := by
  cases c with
  | ofNat n => exact natRepr_all_digits n
  | negSucc n => exact absurd hc (by have := Int.negSucc_lt_zero n; omega)

/-- The decimal rendering of a positive integer differs from any string
containing a non-digit character. -/
theorem posInt_toString_ne (c : Int) (hc : 0 < c) (s : String) (ch : Char)
    (hch : ch ∈ s.data) (hnd : ch.isDigit = false) : toString c ≠ s := by
  intro he
  have h := posInt_toString_all_digits c hc ch (by rw [he]; exact hch)
  rw [hnd] at h
  exact absurd h (by decide)

/-- A positive `countPositive` field is JS-truthy. -/
theorem countPositive_intTruthy (c : Option Int) (h : countPositive c = true) :
    intTruthy c = true := by
  cases c with
  | none => simp [countPositive] at h
  | some n =>
      simp only [countPositive, decide_eq_true_eq] at h
      simp only [intTruthy, decide_eq_true_eq, ne_eq]
      omega

/-! ## C6: unregister is idempotent -/

/-- After deleting an id, the map no longer finds it. -/
theorem mapGet_mapDelete (m : List (String × ActiveEvaluation)) (id : String) :
    mapGet (mapDelete m id) id = none := by
  have hfind : (mapDelete m id).find? (fun p => p.1 == id) = none := by
    rw [List.find?_eq_none]
    intro p hp
    have h2 := (List.mem_filter.mp hp).2
    simp only [bne_iff_ne, ne_eq] at h2
    simp only [beq_iff_eq]
    exact h2
  simp [mapGet, hfind]

/-- `unregister` of an untracked id leaves the state unchanged. -/
theorem unregister_noop (s : ManagerState) (id : String)
    (h : mapGet s.activeEvaluations id = none) : unregister s id = s := by
  simp [unregister, h]

/-- C6: `unregister` is idempotent — a second `unregister` of the same id
returns the registry state produced by the first unchanged, and an
`unregister` of an untracked id is a no-op. -/
theorem c6_unregister_idempotent (s : ManagerState) (id : String) :
    unregister (unregister s id) id = unregister s id ∧
    (mapGet s.activeEvaluations id = none → unregister s id = s) := by
  constructor
  · cases h : mapGet s.activeEvaluations id with
    | none => rw [unregister_noop s id h, unregister_noop s id h]
    | some e =>
        refine unregister_noop _ _ ?_
        simp [unregister, h, mapGet_mapDelete]
  · exact unregister_noop s id

/-- Witness for C6 at a concrete one-entry registry state. -/
theorem c6_witness :
    unregister
        (unregister
          { activeEvaluations := [("a", ⟨"a", "pa", "cmd"⟩)], armedTimers := ["a"],
            killed := [], maxConcurrent := 5 } "a") "a" =
      unregister
        { activeEvaluations := [("a", ⟨"a", "pa", "cmd"⟩)], armedTimers := ["a"],
          killed := [], maxConcurrent := 5 } "a" ∧
    unregister
        { activeEvaluations := [("a", ⟨"a", "pa", "cmd"⟩)], armedTimers := ["a"],
          killed := [], maxConcurrent := 5 } "b" =
      { activeEvaluations := [("a", ⟨"a", "pa", "cmd"⟩)], armedTimers := ["a"],
        killed := [], maxConcurrent := 5 } := by
  constructor
  · exact (c6_unregister_idempotent
      { activeEvaluations := [("a", ⟨"a", "pa", "cmd"⟩)], armedTimers := ["a"],
        killed := [], maxConcurrent := 5 } "a").1
  · exact (c6_unregister_idempotent
      { activeEvaluations := [("a", ⟨"a", "pa", "cmd"⟩)], armedTimers := ["a"],
        killed := [], maxConcurrent := 5 } "b").2 (by decide)

/-! ## C7: estimateTestCount policy -/

/-- C7: `estimateTestCount` realises the spec's per-run-type policy:
5 for smoke, the actual count for model and full, `min(actual, 10)` for
pattern and retry, and for first the user-supplied count defaulting to
10 when absent. -/
theorem c7_estimateTestCount (runType : RunType) (formData : EvalFormSchema)
    (actualTestCount : Int) :
    estimateTestCount runType formData actualTestCount =
      estimateTestCountSpec runType formData actualTestCount := by
  cases runType <;> try rfl
  cases h : formData.count <;> simp [estimateTestCount, estimateTestCountSpec, h]

/-! ## C9: executePromptfoo exit-code handling -/

/-- C9: the `close` handler of `executePromptfoo` resolves exactly when
the promptfoo exit code is 0 or the "success with test failures" code
100, and for any other code rejects with an error naming that code. -/
theorem c9_executePromptfoo (code : Option Int) :
    (executePromptfooClose code = .ok () ↔ (code = some 0 ∨ code = some 100)) ∧
    (code ≠ some 0 → code ≠ some 100 →
      executePromptfooClose code =
        .error ("promptfoo exited with code " ++ exitCodeText code)) := by
  constructor
  · unfold executePromptfooClose
    split
    · simp_all
    · simp_all
  · intro h0 h100
    unfold executePromptfooClose
    rw [if_neg]
    rintro (h | h) <;> contradiction

/-- Witness for C9: exit code 1 rejects with the code in the message;
exit code 100 resolves. -/
theorem c9_witness :
    executePromptfooClose (some 1) =
      .error ("promptfoo exited with code " ++ exitCodeText (some 1)) ∧
    executePromptfooClose (some 100) = .ok () := by
  constructor
  · exact (c9_executePromptfoo (some 1)).2 (by decide) (by decide)
  · exact (c9_executePromptfoo (some 100)).1.mpr (Or.inr rfl)

/-! ## C10: buildCommandArgs on missing positionals -/

/-- Whether the positional field the run type calls for is JS-truthy. -/
def positionalPresent (d : EvalFormSchema) : Bool :=
  match d.runType with
  | .model => strTruthy d.modelName
  | .pattern => strTruthy d.pattern
  | .first => intTruthy d.count
  | _ => false

/-- C10: `buildCommandArgs` is total over unvalidated form data — when the
positional its run type calls for is absent, empty, or zero, it silently
omits the positional arguments and returns just the run type followed by
the enabled flags. -/
theorem c10_buildCommandArgs_total (d : EvalFormSchema)
    (h : positionalPresent d = false) :
    buildCommandArgs d = d.runType.toArg :: specFlags d := by
  have hargs : buildCommandArgs d =
      ([d.runType.toArg] ++ []) ++ specFlags d := by
    cases hrt : d.runType <;>
      (simp only [positionalPresent, hrt] at h;
        cases hnc : d.noCache <;> cases hvb : d.verbose <;> cases hnh : d.noHtml <;>
          simp [buildCommandArgs, specFlags, hrt, hnc, hvb, hnh, h])
  simpa using hargs

/-- Witness for C10: a model run with no model name yields just the run
type and the enabled verbose flag. -/
theorem c10_witness :
    buildCommandArgs { runType := RunType.model, verbose := true } =
      RunType.model.toArg :: specFlags { runType := RunType.model, verbose := true } := by
  exact c10_buildCommandArgs_total { runType := RunType.model, verbose := true } (by decide)

/-! ## C3: parseResults summary values -/

/-- C3: `parseResults` returns null when output.json is absent; on a
valid results array it reports `totalTests` as the array length,
`passedTests` as the number of success-true entries, `failedTests` as
their difference, `passRate = 0` (not NaN) on an empty array, and
`passRate = 100` when every entry of a nonempty array has success =
true. -/
theorem c3_parseResults (reportsDir : Option (List String)) (rs : List TestResult) :
    EvalManager.parseResults .absent reportsDir = .ok none ∧
    ∃ res, EvalManager.parseResults (.validJson (.array rs)) reportsDir = .ok (some res) ∧
      res.totalTests = some rs.length ∧
      res.passedTests = some (rs.filter (fun r => r.success)).length ∧
      res.failedTests = some (rs.length - (rs.filter (fun r => r.success)).length) ∧
      (rs = [] → res.passRate = some 0) ∧
      (rs ≠ [] → (∀ r ∈ rs, r.success = true) → res.passRate = some 100) := by
  refine ⟨rfl, _, rfl, rfl, rfl, rfl, ?_, ?_⟩
  · intro h
    subst h
    rfl
  · intro hne hall
    have hfilter : rs.filter (fun r => r.success) = rs := List.filter_eq_self.mpr hall
    have hlen : 0 < rs.length := List.length_pos.mpr hne
    simp only [EvalManager.parseResults, resultsOf, hfilter, Option.some.injEq]
    rw [if_pos hlen, div_self (ne_of_gt (by exact_mod_cast hlen)), one_mul]

/-- Witness for C3: a two-entry all-success results array yields a 100%
pass rate over two tests. -/
theorem c3_witness :
    ∃ res, EvalManager.parseResults (.validJson (.array [⟨true⟩, ⟨true⟩])) none =
        .ok (some res) ∧
      res.passRate = some 100 ∧ res.totalTests = some 2 := by
  obtain ⟨h0, res, h1, h2, h3, h4, h5, h6⟩ := c3_parseResults none [⟨true⟩, ⟨true⟩]
  exact ⟨res, h1, h6 (by decide) (by decide), h2⟩

/-! ## C4: parseResults error handling -/

/-- Counterexample to C4 as stated: a results file that exists, parses as
valid JSON, but lacks the `results` array (`output.results` absent) does
NOT produce a parse error — both parseResults copies return a success
result with zero tests, because `output.results || []` substitutes an
empty array. -/
theorem c4_counterexample :
    EvalManager.parseResults (.validJson .missing) none =
      .ok (some { success := true, passRate := some 0, totalTests := some 0,
                  passedTests := some 0, failedTests := some 0, htmlReportPath := none }) ∧
    PageServer.parseResults (.validJson .missing) none =
      some { success := true, passRate := some 0, totalTests := some 0,
             passedTests := some 0, failedTests := some 0, htmlReportPath := none } :=
  ⟨rfl, rfl⟩

/-- C4 as amended: when the results file exists but is not valid JSON, or
its `results` field is a truthy non-array (on which iteration throws),
parseResults surfaces a structured parse error to the caller — the
eval-manager copy as an `EvaluationError` with code PARSE_ERROR whose
message is the key-redacted underlying message, the page-server copy as
a `success: false` result value — never an uncaught crash and never a
success result; a valid-JSON file merely lacking the `results` array is
instead treated as an empty results array and yields a success summary
with zero tests. -/
theorem c4_amended (reportsDir : Option (List String)) (msg : String) :
    (∃ e, EvalManager.parseResults (.invalidJson msg) reportsDir = .error e ∧
      e.code = ErrorCodes.PARSE_ERROR ∧ e.message = sanitizeErrorMessage msg) ∧
    (∃ e, EvalManager.parseResults (.validJson (.nonArrayTruthy msg)) reportsDir = .error e ∧
      e.code = ErrorCodes.PARSE_ERROR ∧ e.message = sanitizeErrorMessage msg) ∧
    PageServer.parseResults (.invalidJson msg) reportsDir =
      some { success := false, error := some ("Failed to parse results: " ++ msg) } ∧
    PageServer.parseResults (.validJson (.nonArrayTruthy msg)) reportsDir =
      some { success := false, error := some ("Failed to parse results: " ++ msg) } ∧
    ∃ res, EvalManager.parseResults (.validJson .missing) reportsDir = .ok (some res) ∧
      res.success = true ∧ res.totalTests = some 0 :=
  ⟨⟨_, rfl, rfl, rfl⟩, ⟨_, rfl, rfl, rfl⟩, rfl, rfl, _, rfl, rfl, rfl⟩

/-! ## C8: guards run before spawn -/

/-- The structured errors `actions.run` can return before any child
process is spawned. -/
def isPreSpawnError : RunActionResult → Prop
  | .formInvalid => True
  | .validationFailed _ => True
  | .apiKeyMissing _ => True
  | .capacityError _ => True
  | .registerFailed _ => False
  | .started _ _ => False

/-- C8: when structural validation fails, custom validation fails, the
API-key environment variable is absent, or the registry is at capacity,
`actions.run` returns a structured error immediately: no child process
is spawned and the registry's tracked state is exactly as before. -/
theorem c8_no_spawn_on_guard_failure (input : RunActionInput) (evalId : String)
    (mgr : ManagerState)
    (h : input.formValid = false ∨ validateEvalForm input.formData ≠ none ∨
      input.apiKeyPresent = false ∨ canStartNew mgr = false) :
    (runAction input evalId mgr).spawned = false ∧
    (runAction input evalId mgr).manager = mgr ∧
    isPreSpawnError (runAction input evalId mgr).result := by
  unfold runAction
  by_cases hf : input.formValid = false
  · simp [hf, isPreSpawnError]
  · rw [if_neg hf]
    cases hv : validateEvalForm input.formData with
    | some errors => exact ⟨rfl, rfl, trivial⟩
    | none =>
        by_cases ha : input.apiKeyPresent = false
        · simp [ha, isPreSpawnError]
        · rw [if_neg ha]
          by_cases hc : canStartNew mgr = false
          · simp [hc, isPreSpawnError]
          · rcases h with h | h | h | h
            · exact absurd h hf
            · rw [hv] at h; exact absurd rfl h
            · exact absurd h ha
            · exact absurd h hc

/-- A structurally valid smoke request submitted while the API key is
absent from the environment. -/
def missingKeyInput : RunActionInput where
  formValid := true
  formData := { runType := RunType.smoke }
  apiKeyPresent := false
  spawnedProcess := "child"

/-- Witness for C8: a structurally valid smoke request with the API key
absent is rejected before spawn, leaving an empty registry untouched. -/
theorem c8_witness :
    (runAction missingKeyInput "id1" (initialState 5)).spawned = false ∧
    (runAction missingKeyInput "id1" (initialState 5)).manager = initialState 5 ∧
    isPreSpawnError (runAction missingKeyInput "id1" (initialState 5)).result := by
  exact c8_no_spawn_on_guard_failure missingKeyInput "id1" (initialState 5)
    (Or.inr (Or.inr (Or.inl rfl)))

/-! ## C1: registry capacity invariant -/

/-- `Map.set` grows the map by at most one entry. -/
theorem length_mapSet_le (m : List (String × ActiveEvaluation)) (id : String)
    (v : ActiveEvaluation) : (mapSet m id v).length ≤ m.length + 1 := by
  unfold mapSet
  split
  · simp
  · simp

/-- `Map.set` of an absent key appends, growing the map by exactly one. -/
theorem length_mapSet_fresh (m : List (String × ActiveEvaluation)) (id : String)
    (v : ActiveEvaluation) (h : mapGet m id = none) :
    (mapSet m id v).length = m.length + 1 := by
  have hf : m.find? (fun p => p.1 == id) = none := by
    unfold mapGet at h
    cases hf : m.find? (fun p => p.1 == id) with
    | none => rfl
    | some p => rw [hf] at h; simp at h
  simp [mapSet, hf]

/-- `unregister` never grows the tracked map. -/
theorem unregister_length_le (s : ManagerState) (id : String) :
    (unregister s id).activeEvaluations.length ≤ s.activeEvaluations.length := by
  unfold unregister
  split
  · exact le_refl _
  · exact List.length_filter_le _ _

/-- `unregister` of a tracked id strictly shrinks the tracked map. -/
theorem unregister_length_lt (s : ManagerState) (id : String) (h : id ∈ keys s) :
    (unregister s id).activeEvaluations.length < s.activeEvaluations.length := by
  simp only [keys, List.mem_map] at h
  obtain ⟨p, hp, hpid⟩ := h
  have hsome : (s.activeEvaluations.find? (fun q => q.1 == id)).isSome = true :=
    List.find?_isSome.mpr ⟨p, hp, by simp [hpid]⟩
  unfold unregister
  cases hg : mapGet s.activeEvaluations id with
  | none =>
      unfold mapGet at hg
      rw [Option.map_eq_none'] at hg
      rw [hg] at hsome
      simp at hsome
  | some e =>
      simp only [mapDelete]
      exact List.length_filter_lt_length_iff_exists.mpr ⟨p, hp, by simp [hpid]⟩

/-- `unregister` does not touch the configured bound. -/
theorem unregister_maxConcurrent (s : ManagerState) (id : String) :
    (unregister s id).maxConcurrent = s.maxConcurrent := by
  unfold unregister
  split <;> rfl

/-- `cancel` does not touch the configured bound. -/
theorem cancel_maxConcurrent (s : ManagerState) (id : String) :
    (cancel s id).maxConcurrent = s.maxConcurrent := by
  unfold cancel
  split
  · rfl
  · rw [unregister_maxConcurrent]

/-- `cancel` never grows the tracked map. -/
theorem cancel_length_le (s : ManagerState) (id : String) :
    (cancel s id).activeEvaluations.length ≤ s.activeEvaluations.length := by
  unfold cancel
  split
  · exact le_refl _
  · exact unregister_length_le _ _

/-- Every registry operation preserves the configured bound. -/
theorem applyOp_maxConcurrent (s : ManagerState) (op : RegistryOp) :
    (applyOp s op).maxConcurrent = s.maxConcurrent := by
  cases op with
  | register id proc command timeoutMs =>
      by_cases hc : canStartNew s = false
      · simp [applyOp, register, hc]
      · simp [applyOp, register, hc]
  | unregister id => exact unregister_maxConcurrent s id
  | cancel id => exact cancel_maxConcurrent s id
  | fire id =>
      show (fireTimeout s id).maxConcurrent = s.maxConcurrent
      unfold fireTimeout
      split
      · exact cancel_maxConcurrent s id
      · rfl

/-- Every registry operation keeps the tracked count within the bound. -/
theorem applyOp_length_le (s : ManagerState) (op : RegistryOp)
    (h : s.activeEvaluations.length ≤ s.maxConcurrent) :
    (applyOp s op).activeEvaluations.length ≤ s.maxConcurrent := by
  cases op with
  | register id proc command timeoutMs =>
      by_cases hc : canStartNew s = false
      · simp [applyOp, register, hc]
        exact h
      · have hlt : s.activeEvaluations.length < s.maxConcurrent := by
          simp only [canStartNew, Bool.not_eq_false, decide_eq_true_eq] at hc
          exact hc
        simp only [applyOp, register, if_neg hc]
        calc (mapSet s.activeEvaluations id ⟨id, proc, command⟩).length
            ≤ s.activeEvaluations.length + 1 := length_mapSet_le _ _ _
          _ ≤ s.maxConcurrent := hlt
  | unregister id => exact le_trans (unregister_length_le s id) h
  | cancel id => exact le_trans (cancel_length_le s id) h
  | fire id =>
      show (fireTimeout s id).activeEvaluations.length ≤ s.maxConcurrent
      unfold fireTimeout
      split
      · exact le_trans (cancel_length_le s id) h
      · exact h

/-- The registry invariant: along any operation sequence the tracked
count stays within the (unchanged) configured bound. -/
theorem applyOps_inv (ops : List RegistryOp) :
    ∀ s : ManagerState, s.activeEvaluations.length ≤ s.maxConcurrent →
      (applyOps s ops).maxConcurrent = s.maxConcurrent ∧
      (applyOps s ops).activeEvaluations.length ≤ s.maxConcurrent := by
  induction ops with
  | nil => exact fun s h => ⟨rfl, h⟩
  | cons op ops ih =>
      intro s h
      have hmax := applyOp_maxConcurrent s op
      have hlen : (applyOp s op).activeEvaluations.length ≤ (applyOp s op).maxConcurrent := by
        rw [hmax]
        exact applyOp_length_le s op h
      obtain ⟨h1, h2⟩ := ih (applyOp s op) hlen
      refine ⟨by rw [applyOps, h1, hmax], ?_⟩
      rw [applyOps] at *
      rw [hmax] at h2
      exact h2

/-- A successful `register` with a fresh id grows the tracked count by
exactly one. -/
theorem register_ok_length (s : ManagerState) (id proc command : String)
    (timeoutMs : Nat) (s2 : ManagerState)
    (hok : register s id proc command timeoutMs = .ok s2)
    (hfresh : mapGet s.activeEvaluations id = none) :
    s2.activeEvaluations.length = s.activeEvaluations.length + 1 := by
  unfold register at hok
  by_cases hc : canStartNew s = false
  · rw [if_pos hc] at hok
    exact absurd hok (by simp)
  · rw [if_neg hc] at hok
    have h2 := Except.ok.inj hok
    rw [← h2]
    exact length_mapSet_fresh _ _ _ hfresh

/-- C1: along every register/unregister/cancel sequence from a fresh
registry, the tracked count never exceeds the bound; a successful
fresh-id `register` raises the count by one (so the count reaches the
bound after `maxConcurrent` successful registers, where `canStartNew` is
false); unregistering any tracked id at capacity makes `canStartNew`
true again; and a `register` at capacity fails with the capacity error
and leaves the registry state exactly unchanged. -/
theorem c1_registry_capacity (maxC : Nat) (ops : List RegistryOp) :
    (applyOps (initialState maxC) ops).activeEvaluations.length ≤ maxC ∧
    ((applyOps (initialState maxC) ops).activeEvaluations.length = maxC →
      canStartNew (applyOps (initialState maxC) ops) = false) ∧
    (∀ id proc command timeoutMs s2,
      register (applyOps (initialState maxC) ops) id proc command timeoutMs = .ok s2 →
      mapGet (applyOps (initialState maxC) ops).activeEvaluations id = none →
      s2.activeEvaluations.length =
        (applyOps (initialState maxC) ops).activeEvaluations.length + 1) ∧
    (∀ id, id ∈ keys (applyOps (initialState maxC) ops) →
      (applyOps (initialState maxC) ops).activeEvaluations.length = maxC →
      canStartNew (unregister (applyOps (initialState maxC) ops) id) = true) ∧
    (∀ id proc command timeoutMs,
      canStartNew (applyOps (initialState maxC) ops) = false →
      register (applyOps (initialState maxC) ops) id proc command timeoutMs =
        .error ("Max concurrent evaluations (" ++ toString maxC ++ ") reached") ∧
      applyOp (applyOps (initialState maxC) ops) (.register id proc command timeoutMs) =
        applyOps (initialState maxC) ops) := by
  obtain ⟨hmax, hlen⟩ := applyOps_inv ops (initialState maxC) (by simp [initialState])
  have hmax2 : (applyOps (initialState maxC) ops).maxConcurrent = maxC := hmax
  refine ⟨hlen, ?_, ?_, ?_, ?_⟩
  · intro heq
    unfold canStartNew
    rw [hmax2, heq]
    simp
  · intro id proc command timeoutMs s2 hok hfresh
    exact register_ok_length _ id proc command timeoutMs s2 hok hfresh
  · intro id hid heq
    have hlt := unregister_length_lt _ id hid
    rw [heq] at hlt
    unfold canStartNew
    rw [unregister_maxConcurrent, hmax2]
    simpa using hlt
  · intro id proc command timeoutMs hcap
    constructor
    · unfold register
      rw [if_pos hcap, hmax]
      rfl
    · simp only [applyOp]
      unfold register
      rw [if_pos hcap]

/-- Witness for C1: with bound 2, after two successful registers
`canStartNew` is false and a third register fails with the capacity
error leaving the state unchanged; unregistering one id restores
`canStartNew`. -/
theorem c1_witness :
    canStartNew (applyOps (initialState 2)
      [RegistryOp.register "a" "pa" "cmd" 5, RegistryOp.register "b" "pb" "cmd" 5]) = false ∧
    register (applyOps (initialState 2)
        [RegistryOp.register "a" "pa" "cmd" 5, RegistryOp.register "b" "pb" "cmd" 5])
      "c" "pc" "cmd" 5 = .error ("Max concurrent evaluations (" ++ toString 2 ++ ") reached") ∧
    canStartNew (unregister (applyOps (initialState 2)
      [RegistryOp.register "a" "pa" "cmd" 5, RegistryOp.register "b" "pb" "cmd" 5]) "a") = true := by
  obtain ⟨h1, h2, h3, h4, h5⟩ := c1_registry_capacity 2
    [RegistryOp.register "a" "pa" "cmd" 5, RegistryOp.register "b" "pb" "cmd" 5]
  refine ⟨h2 (by decide), (h5 "c" "pc" "cmd" 5 (h2 (by decide))).1, h4 "a" (by decide) (by decide)⟩

/-! ## C5: timeout firing and timer hygiene -/

/-- The armed-timer set mirrors the tracked id set: exactly the tracked
evaluations have a pending timeout. -/
def armedMatches (s : ManagerState) : Prop :=
  ∀ x : String, x ∈ s.armedTimers ↔ x ∈ keys s

/-- Membership in the keys of a map after `Map.delete`. -/
theorem mem_keys_mapDelete (m : List (String × ActiveEvaluation)) (id x : String) :
    x ∈ (mapDelete m id).map (fun p => p.1) ↔
      (x ∈ m.map (fun p => p.1) ∧ x ≠ id) := by
  simp only [mapDelete, List.mem_map, List.mem_filter, bne_iff_ne, ne_eq]
  constructor
  · rintro ⟨p, ⟨hp, hne⟩, hx⟩
    exact ⟨⟨p, hp, hx⟩, by rw [← hx]; exact hne⟩
  · rintro ⟨⟨p, hp, hx⟩, hne⟩
    exact ⟨p, ⟨hp, by rw [hx]; exact hne⟩, hx⟩

/-- A tracked id is found by `Map.get`. -/
theorem mapGet_some_of_mem_keys (s : ManagerState) (id : String) (h : id ∈ keys s) :
    ∃ e, mapGet s.activeEvaluations id = some e := by
  simp only [keys, List.mem_map] at h
  obtain ⟨p, hp, hpid⟩ := h
  have hsome : (s.activeEvaluations.find? (fun q => q.1 == id)).isSome = true :=
    List.find?_isSome.mpr ⟨p, hp, by simp [hpid]⟩
  obtain ⟨q, hq⟩ := Option.isSome_iff_exists.mp hsome
  exact ⟨q.2, by simp [mapGet, hq]⟩

/-- `unregister` preserves the armed-matches-tracked invariant. -/
theorem armedMatches_unregister (s : ManagerState) (id : String)
    (h : armedMatches s) : armedMatches (unregister s id) := by
  unfold unregister
  cases hg : mapGet s.activeEvaluations id with
  | none => exact h
  | some e =>
      intro x
      simp only [keys]
      rw [mem_keys_mapDelete]
      simp only [List.mem_filter, bne_iff_ne, ne_eq, decide_eq_true_eq]
      rw [h x]
      exact Iff.rfl

/-- `cancel` preserves the armed-matches-tracked invariant. -/
theorem armedMatches_cancel (s : ManagerState) (id : String)
    (h : armedMatches s) : armedMatches (cancel s id) := by
  unfold cancel
  cases hg : mapGet s.activeEvaluations id with
  | none => exact h
  | some e => exact armedMatches_unregister _ id h

/-- A fresh-id operation preserves the armed-matches-tracked invariant. -/
theorem armedMatches_applyOp (s : ManagerState) (op : RegistryOp)
    (hf : freshRegister s op = true) (h : armedMatches s) :
    armedMatches (applyOp s op) := by
  cases op with
  | register id proc command timeoutMs =>
      show armedMatches (match register s id proc command timeoutMs with
        | .ok s2 => s2
        | .error _ => s)
      by_cases hc : canStartNew s = false
      · simp only [register, if_pos hc]
        exact h
      · simp only [register, if_neg hc]
        have hfind : s.activeEvaluations.find? (fun p => p.1 == id) = none := by
          simp only [freshRegister, Option.isNone_iff_eq_none] at hf
          unfold mapGet at hf
          cases hfind : s.activeEvaluations.find? (fun p => p.1 == id) with
          | none => rfl
          | some p => rw [hfind] at hf; simp at hf
        intro x
        have hkeys2 : (mapSet s.activeEvaluations id ⟨id, proc, command⟩).map
            (fun p => p.1) = s.activeEvaluations.map (fun p => p.1) ++ [id] := by
          simp [mapSet, hfind]
        have hx : x ∈ s.armedTimers ↔ x ∈ s.activeEvaluations.map (fun p => p.1) := h x
        show x ∈ id :: s.armedTimers ↔
          x ∈ (mapSet s.activeEvaluations id ⟨id, proc, command⟩).map (fun p => p.1)
        rw [hkeys2]
        simp only [List.mem_cons, List.mem_append, List.mem_singleton, List.not_mem_nil,
          or_false]
        tauto
  | unregister id => exact armedMatches_unregister s id h
  | cancel id => exact armedMatches_cancel s id h
  | fire id =>
      show armedMatches (fireTimeout s id)
      unfold fireTimeout
      split
      · exact armedMatches_cancel s id h
      · exact h

/-- A registry below capacity accepts any `register` call. -/
theorem register_ok_of_canStartNew (s : ManagerState) (h : canStartNew s = true)
    (id proc command : String) (timeoutMs : Nat) :
    ∃ s2, register s id proc command timeoutMs = .ok s2 := by
  unfold register
  rw [if_neg (by rw [h]; simp)]
  exact ⟨_, rfl⟩

/-- Along a well-formed trace the armed-matches-tracked invariant is
maintained. -/
theorem armedMatches_applyOps (ops : List RegistryOp) :
    ∀ s : ManagerState, wfOps s ops = true → armedMatches s →
      armedMatches (applyOps s ops) := by
  induction ops with
  | nil => exact fun s _ h => h
  | cons op ops ih =>
      intro s hwf h
      simp only [wfOps, Bool.and_eq_true] at hwf
      exact ih (applyOp s op) hwf.2 (armedMatches_applyOp s op hwf.1 h)

/-- C5: along every well-formed trace (register calls use fresh ids, as
the one register caller does), an id that is no longer tracked has no
pending timeout — `unregister` always cancels the timeout handle — and
when a still-armed timeout fires, the evaluation's process is sent
SIGTERM, its id leaves the tracked set, and a subsequent `register`
under the same concurrency budget succeeds. -/
theorem c5_timeout_fire (maxC : Nat) (ops : List RegistryOp)
    (hwf : wfOps (initialState maxC) ops = true) :
    (∀ id, id ∉ keys (applyOps (initialState maxC) ops) →
      id ∉ (applyOps (initialState maxC) ops).armedTimers) ∧
    (∀ id, id ∈ (applyOps (initialState maxC) ops).armedTimers →
      (∃ e, mapGet (applyOps (initialState maxC) ops).activeEvaluations id = some e ∧
        e.process ∈ (fireTimeout (applyOps (initialState maxC) ops) id).killed) ∧
      id ∉ keys (fireTimeout (applyOps (initialState maxC) ops) id) ∧
      canStartNew (fireTimeout (applyOps (initialState maxC) ops) id) = true ∧
      (∀ id2 proc2 command2 timeoutMs2, ∃ s3,
        register (fireTimeout (applyOps (initialState maxC) ops) id)
          id2 proc2 command2 timeoutMs2 = .ok s3)) := by
  have hmatch : armedMatches (applyOps (initialState maxC) ops) :=
    armedMatches_applyOps ops (initialState maxC) hwf (by intro x; simp [initialState, keys])
  obtain ⟨hmax, hlen⟩ := applyOps_inv ops (initialState maxC) (by simp [initialState])
  have hmax2 : (applyOps (initialState maxC) ops).maxConcurrent = maxC := hmax
  constructor
  · intro id hid
    rw [hmatch id]
    exact hid
  · intro id hid
    have hkeys : id ∈ keys (applyOps (initialState maxC) ops) := (hmatch id).mp hid
    obtain ⟨e, hget⟩ := mapGet_some_of_mem_keys _ id hkeys
    have hcontains : (applyOps (initialState maxC) ops).armedTimers.contains id = true := by
      exact List.elem_eq_true_of_mem hid
    have hfire : fireTimeout (applyOps (initialState maxC) ops) id =
        unregister { applyOps (initialState maxC) ops with
          killed := (applyOps (initialState maxC) ops).killed ++ [e.process] } id := by
      unfold fireTimeout cancel
      rw [if_pos hcontains]
      rw [hget]
    have hget2 : mapGet ({ applyOps (initialState maxC) ops with
        killed := (applyOps (initialState maxC) ops).killed ++ [e.process] }
          : ManagerState).activeEvaluations id = some e := hget
    have hkilled : (fireTimeout (applyOps (initialState maxC) ops) id).killed =
        (applyOps (initialState maxC) ops).killed ++ [e.process] := by
      rw [hfire]
      unfold unregister
      rw [hget2]
    have hlt : (fireTimeout (applyOps (initialState maxC) ops) id).activeEvaluations.length <
        (applyOps (initialState maxC) ops).activeEvaluations.length := by
      rw [hfire]
      exact unregister_length_lt _ id hkeys
    have hmaxfire : (fireTimeout (applyOps (initialState maxC) ops) id).maxConcurrent = maxC := by
      rw [hfire, unregister_maxConcurrent]
      exact hmax2
    have hcan : canStartNew (fireTimeout (applyOps (initialState maxC) ops) id) = true := by
      unfold canStartNew
      rw [hmaxfire]
      simp only [decide_eq_true_eq]
      omega
    refine ⟨⟨e, hget, ?_⟩, ?_, hcan, ?_⟩
    · rw [hkilled]
      simp
    · rw [hfire]
      unfold unregister
      rw [hget2]
      simp only [keys]
      rw [mem_keys_mapDelete]
      rintro ⟨h1, h2⟩
      exact h2 rfl
    · intro id2 proc2 command2 timeoutMs2
      exact register_ok_of_canStartNew _ hcan id2 proc2 command2 timeoutMs2

/-- Witness for C5 at a concrete one-register trace with bound 1: the
armed timeout of "a" fires, "a" leaves the tracked set and the registry
can start a new evaluation again. -/
theorem c5_witness :
    "a" ∈ (applyOps (initialState 1) [RegistryOp.register "a" "pa" "cmd" 5]).armedTimers ∧
    canStartNew (fireTimeout
      (applyOps (initialState 1) [RegistryOp.register "a" "pa" "cmd" 5]) "a") = true ∧
    "a" ∉ keys (fireTimeout
      (applyOps (initialState 1) [RegistryOp.register "a" "pa" "cmd" 5]) "a") := by
  have h := c5_timeout_fire 1 [RegistryOp.register "a" "pa" "cmd" 5] (by decide)
  have h2 := h.2 "a" (by decide)
  exact ⟨by decide, h2.2.2.1, h2.2.1⟩

/-! ## C2: buildCommandArgs on validated requests -/

/-- A singleton-producing conditional that produced the empty list had a
false condition. -/
theorem ite_singleton_eq_nil {α : Type} {P : Prop} [Decidable P] {x : α}
    (h : (if P then [x] else ([] : List α)) = []) : ¬P := by
  intro hp
  rw [if_pos hp] at h
  exact absurd h (by simp)

/-- A Bool that is not false is true. -/
theorem eq_true_of_not_eq_false {b : Bool} (h : ¬b = false) : b = true := by
  cases b
  · exact absurd rfl h
  · rfl

/-- What passing `validateEvalForm` guarantees: the positional field the
run type requires is truthy (and for `first`, positive), and a truthy
model name is one of the recognised options. -/
theorem validateEvalForm_cond (d : EvalFormSchema) (hv : validateEvalForm d = none) :
    (d.runType = RunType.model → strTruthy d.modelName = true) ∧
    (d.runType = RunType.pattern → strTruthy d.pattern = true) ∧
    (d.runType = RunType.first → countPositive d.count = true) ∧
    (strTruthy d.modelName = true → MODEL_OPTIONS.contains (d.modelName.getD "") = true) := by
  simp only [validateEvalForm] at hv
  have hnil : ((if d.runType = RunType.model ∧ strTruthy d.modelName = false then
        [("modelName", "Model name is required for model run type")] else []) ++
      (if d.runType = RunType.pattern ∧ strTruthy d.pattern = false then
        [("pattern", "Pattern is required for pattern run type")] else []) ++
      (if d.runType = RunType.first ∧ countPositive d.count = false then
        [("count", "Count is required for first run type")] else []) ++
      (if strTruthy d.modelName = true ∧
          MODEL_OPTIONS.contains (d.modelName.getD "") = false then
        [("modelName", "Invalid model name")] else [])) = [] := by
    by_contra hne
    rw [if_pos (List.length_pos.mpr hne)] at hv
    exact absurd hv (by simp)
  rw [List.append_eq_nil, List.append_eq_nil, List.append_eq_nil] at hnil
  obtain ⟨⟨⟨h1, h2⟩, h3⟩, h4⟩ := hnil
  have g1 := ite_singleton_eq_nil h1
  have g2 := ite_singleton_eq_nil h2
  have g3 := ite_singleton_eq_nil h3
  have g4 := ite_singleton_eq_nil h4
  refine ⟨?_, ?_, ?_, ?_⟩
  · intro h
    exact eq_true_of_not_eq_false (fun hb => g1 ⟨h, hb⟩)
  · intro h
    exact eq_true_of_not_eq_false (fun hb => g2 ⟨h, hb⟩)
  · intro h
    exact eq_true_of_not_eq_false (fun hb => g3 ⟨h, hb⟩)
  · intro h
    exact eq_true_of_not_eq_false (fun hb => g4 ⟨h, hb⟩)

/-- On a validated request, `buildCommandArgs` is exactly the run type
followed by the claim's positionals and the claim's flags. -/
theorem buildCommandArgs_decomp (d : EvalFormSchema) (hv : validateEvalForm d = none) :
    buildCommandArgs d = d.runType.toArg :: (specPositionals d ++ specFlags d) := by
  obtain ⟨hm, hp, hc, hopts⟩ := validateEvalForm_cond d hv
  cases hrt : d.runType with
  | smoke =>
      cases hnc : d.noCache <;> cases hvb : d.verbose <;> cases hnh : d.noHtml <;>
        simp [buildCommandArgs, specPositionals, specFlags, hrt, hnc, hvb, hnh]
  | full =>
      cases hnc : d.noCache <;> cases hvb : d.verbose <;> cases hnh : d.noHtml <;>
        simp [buildCommandArgs, specPositionals, specFlags, hrt, hnc, hvb, hnh]
  | retry =>
      cases hnc : d.noCache <;> cases hvb : d.verbose <;> cases hnh : d.noHtml <;>
        simp [buildCommandArgs, specPositionals, specFlags, hrt, hnc, hvb, hnh]
  | model =>
      have hmt := hm hrt
      cases hnc : d.noCache <;> cases hvb : d.verbose <;> cases hnh : d.noHtml <;>
        simp [buildCommandArgs, specPositionals, specFlags, hrt, hmt, hnc, hvb, hnh]
  | pattern =>
      have hpt := hp hrt
      cases hnc : d.noCache <;> cases hvb : d.verbose <;> cases hnh : d.noHtml <;>
        simp [buildCommandArgs, specPositionals, specFlags, hrt, hpt, hnc, hvb, hnh]
  | first =>
      have hit := countPositive_intTruthy _ (hc hrt)
      cases hsm : strTruthy d.modelName <;>
        cases hnc : d.noCache <;> cases hvb : d.verbose <;> cases hnh : d.noHtml <;>
          simp [buildCommandArgs, specPositionals, specFlags, hrt, hit, hsm, hnc, hvb, hnh]

/-- None of the three flag strings is a recognised model name. -/
theorem flag_ne_model_option (f m : String)
    (hf : f = NO_CACHE ∨ f = VERBOSE ∨ f = NO_HTML)
    (hm : m ∈ MODEL_OPTIONS) : f ≠ m := by
  rcases hf with rfl | rfl | rfl <;>
    (simp only [ MODEL_OPTIONS, List.mem_cons, List.not_mem_nil, or_false] at hm;
     rcases hm with rfl | rfl | rfl | rfl <;> decide)

/-- None of the three flag strings is the decimal rendering of a positive
count. -/
theorem flag_ne_posInt_toString (f : String)
    (hf : f = NO_CACHE ∨ f = VERBOSE ∨ f = NO_HTML)
    (c : Int) (hc : 0 < c) : f ≠ toString c := by
  rcases hf with rfl | rfl | rfl <;>
    exact fun h => posInt_toString_ne c hc _ '-' (by decide) (by decide) h.symm

/-- A validated `first` request carries a positive concrete count. -/
theorem countPositive_exists (c : Option Int) (h : countPositive c = true) :
    ∃ n, c = some n ∧ 0 < n := by
  cases hc : c with
  | none => rw [hc] at h; simp [countPositive] at h
  | some n =>
      rw [hc] at h
      simp only [countPositive, decide_eq_true_eq] at h
      exact ⟨n, rfl, h⟩

/-- On a validated request whose pattern field is not itself a flag
literal, no flag string occurs among the positional arguments. -/
theorem flag_not_mem_specPositionals (d : EvalFormSchema)
    (hv : validateEvalForm d = none) (f : String)
    (hf : f = NO_CACHE ∨ f = VERBOSE ∨ f = NO_HTML)
    (hpat : d.pattern ≠ some f) :
    f ∉ specPositionals d := by
  obtain ⟨hm, hp, hc, hopts⟩ := validateEvalForm_cond d hv
  cases hrt : d.runType with
  | smoke => simp [specPositionals, hrt]
  | full => simp [specPositionals, hrt]
  | retry => simp [specPositionals, hrt]
  | model =>
      have hmem : d.modelName.getD "" ∈ MODEL_OPTIONS :=
        List.mem_of_elem_eq_true (hopts (hm hrt))
      simp only [specPositionals, hrt, List.mem_singleton]
      exact flag_ne_model_option f _ hf hmem
  | pattern =>
      have hpt := hp hrt
      simp only [specPositionals, hrt, List.mem_singleton]
      intro heq
      cases hpo : d.pattern with
      | none => rw [hpo] at hpt; simp [strTruthy] at hpt
      | some p =>
          rw [hpo] at heq
          simp only [Option.getD_some] at heq
          exact hpat (by rw [hpo, heq])
  | first =>
      obtain ⟨c, hc1, hc2⟩ := countPositive_exists _ (hc hrt)
      simp only [specPositionals, hrt, hc1, Option.getD_some, List.mem_append,
        List.mem_singleton]
      rintro (heq | hmem2)
      · exact flag_ne_posInt_toString f hf c hc2 heq
      · by_cases hsm : strTruthy d.modelName = true
        · rw [if_pos hsm] at hmem2
          have hmem : d.modelName.getD "" ∈ MODEL_OPTIONS :=
            List.mem_of_elem_eq_true (hopts hsm)
          rcases List.mem_cons.mp hmem2 with heq2 | heq2
          · rcases hf with rfl | rfl | rfl <;> exact absurd heq2 (by decide)
          · rcases List.mem_singleton.mp heq2 with heq3
            exact flag_ne_model_option f _ hf hmem heq3
        · rw [if_neg hsm] at hmem2
          exact absurd hmem2 (List.not_mem_nil f)

/-- Count of the no-cache flag among the emitted flags. -/
theorem specFlags_count_no_cache (d : EvalFormSchema) :
    (specFlags d).count NO_CACHE = if d.noCache then 1 else 0 := by
  cases hb : d.noCache <;> cases hvb : d.verbose <;> cases hnh : d.noHtml <;>
    simp only [specFlags, hb, hvb, hnh] <;> decide

/-- Count of the verbose flag among the emitted flags. -/
theorem specFlags_count_verbose (d : EvalFormSchema) :
    (specFlags d).count VERBOSE = if d.verbose then 1 else 0 := by
  cases hb : d.noCache <;> cases hvb : d.verbose <;> cases hnh : d.noHtml <;>
    simp only [specFlags, hb, hvb, hnh] <;> decide

/-- Count of the no-html flag among the emitted flags. -/
theorem specFlags_count_no_html (d : EvalFormSchema) :
    (specFlags d).count NO_HTML = if d.noHtml then 1 else 0 := by
  cases hb : d.noCache <;> cases hvb : d.verbose <;> cases hnh : d.noHtml <;>
    simp only [specFlags, hb, hvb, hnh] <;> decide

/-- The claim's concrete scenario request. -/
def firstGeminiRequest : EvalFormSchema :=
  { runType := RunType.first, count := some 10, modelName := some "gemini",
    noCache := true }

/-- The request of the C2 counterexample: a validated pattern run whose
pattern text is the no-cache flag literal. -/
def patternFlagRequest : EvalFormSchema :=
  { runType := RunType.pattern, pattern := some NO_CACHE }

/-- Counterexample to C2 as stated: the validated request with runType
pattern and pattern text "--no-cache" has noCache = false, yet
"--no-cache" occurs once (not zero times) in the built argument list,
because the pattern positional is passed through verbatim. -/
theorem c2_counterexample :
    validateEvalForm patternFlagRequest = none ∧
    patternFlagRequest.noCache = false ∧
    ¬((buildCommandArgs patternFlagRequest).count NO_CACHE = 0) := by
  refine ⟨by decide, rfl, by decide⟩

/-- C2 as amended: for every validated request whose pattern field is not
itself one of the three flag literals, `buildCommandArgs` is exactly
`[runType] ++ positionals ++ flags` with the claim's positionals, and
each of the three flags occurs exactly once iff its boolean is set and
zero times otherwise; and the claim's concrete scenario holds. -/
theorem c2_buildCommandArgs (d : EvalFormSchema)
    (hv : validateEvalForm d = none)
    (h1 : d.pattern ≠ some NO_CACHE) (h2 : d.pattern ≠ some VERBOSE)
    (h3 : d.pattern ≠ some NO_HTML) :
    buildCommandArgs d = d.runType.toArg :: (specPositionals d ++ specFlags d) ∧
    (buildCommandArgs d).count NO_CACHE = (if d.noCache then 1 else 0) ∧
    (buildCommandArgs d).count VERBOSE = (if d.verbose then 1 else 0) ∧
    (buildCommandArgs d).count NO_HTML = (if d.noHtml then 1 else 0) ∧
    buildCommandArgs firstGeminiRequest =
      ["first", "10", "model", "gemini", "--no-cache"] := by
  have hdec := buildCommandArgs_decomp d hv
  have htoArg : ∀ f, f = NO_CACHE ∨ f = VERBOSE ∨ f = NO_HTML →
      (d.runType.toArg == f) = false := by
    intro f hf
    cases d.runType <;> rcases hf with rfl | rfl | rfl <;> decide
  have hcount : ∀ f, (f = NO_CACHE ∨ f = VERBOSE ∨ f = NO_HTML) → d.pattern ≠ some f →
      (buildCommandArgs d).count f = (specFlags d).count f := by
    intro f hf hpf
    rw [hdec, List.count_cons, List.count_append]
    rw [List.count_eq_zero.mpr (flag_not_mem_specPositionals d hv f hf hpf)]
    rw [htoArg f hf]
    simp
  refine ⟨hdec, ?_, ?_, ?_, by decide⟩
  · rw [hcount NO_CACHE (Or.inl rfl) h1]
    exact specFlags_count_no_cache d
  · rw [hcount VERBOSE (Or.inr (Or.inl rfl)) h2]
    exact specFlags_count_verbose d
  · rw [hcount NO_HTML (Or.inr (Or.inr rfl)) h3]
    exact specFlags_count_no_html d

/-- Witness for C2 (amended) at the claim's own scenario request. -/
theorem c2_witness :
    buildCommandArgs firstGeminiRequest =
      firstGeminiRequest.runType.toArg ::
        (specPositionals firstGeminiRequest ++ specFlags firstGeminiRequest) ∧
    (buildCommandArgs firstGeminiRequest).count NO_CACHE = 1 ∧
    (buildCommandArgs firstGeminiRequest).count VERBOSE = 0 := by
  obtain ⟨hd, hc1, hc2, hc3, hs⟩ := c2_buildCommandArgs firstGeminiRequest
    (by decide) (by decide) (by decide) (by decide)
  refine ⟨hd, ?_, ?_⟩
  · rw [hc1]
    decide
  · rw [hc2]
    decide

end PromptfooRunnerUI
